import Mathlib

/-!
Verification of `scripts/update_scholar_publications.py`.

The script fetches a researcher's publication list from Google Scholar,
paginating through results, deduplicating entries, and writing a sorted JSON
document.  The development below is a shallow embedding of that script:

* Python strings are modelled as Lean `String`s (backed by `List Char`);
  the Python string primitives used by the script (`strip`, `lower`,
  `isdigit`, `startswith`, substring test, `split`) are re-implemented on
  character lists, faithful for the ASCII data the script handles.
* The HTTP layer (`requests`) and the DOM layer (`BeautifulSoup`) are
  external libraries.  An HTTP response is modelled as a status code plus
  body text; the DOM of one listing page is modelled as the list of rows
  that `soup.select("tr.gsc_a_tr")` yields, each row carrying the pieces
  the script reads from it (the optional `a.gsc_a_at` element, the texts of
  the `div.gs_gray` blocks, and the text of the optional `td.gsc_a_y` cell).
* The pagination loop is fuel-indexed (the Python `while True` loop can in
  principle run forever); `none` means the fuel ran out.  The loop is also
  instrumented to report the list of offsets it fetched and the raw stream
  of records it processed, so that claims about "no further fetch" and
  "first-encountered record" can be stated directly.
-/

/-- Characters treated as whitespace by Python's `str.strip` / `\s`
(ASCII subset, which is all the script's data contains). -/
def pyIsSpace (c : Char) : Bool :=
  c = ' ' || c = '\t' || c = '\n' || c = '\r' || c = '\x0b' || c = '\x0c'

/-- Python `str.lstrip` on a character list. -/
def pyLstripL (l : List Char) : List Char := l.dropWhile pyIsSpace

/-- Python `str.rstrip` on a character list. -/
def pyRstripL (l : List Char) : List Char :=
  (l.reverse.dropWhile pyIsSpace).reverse

/-- Python `str.strip` on a character list. -/
def pyStripL (l : List Char) : List Char := pyRstripL (pyLstripL l)

/-- Python `str.strip` on a `String`. -/
def pyStrip (s : String) : String := String.mk (pyStripL s.toList)

/-- Python `str.lower` (ASCII case folding, which covers the script's data). -/
def pyLower (s : String) : String := String.mk (s.toList.map Char.toLower)

/-- Python `needle in hay` substring test on character lists. -/
def containsSub (needle : List Char) : List Char → Bool
  | [] => needle.isEmpty
  | c :: rest => needle.isPrefixOf (c :: rest) || containsSub needle rest

/-- Python `str.startswith` for a single candidate. -/
def pyStartsWith (s pre : String) : Bool := pre.toList.isPrefixOf s.toList

/-- Python `str.endswith` for a single candidate. -/
def pyEndsWith (s suf : String) : Bool :=
  suf.toList.reverse.isPrefixOf s.toList.reverse

/-- Python `str.isdigit` on the ASCII strings the script meets: true exactly
when the string is nonempty and every character is a decimal digit. -/
def pyIsdigit (s : String) : Bool := !s.toList.isEmpty && s.toList.all Char.isDigit

/-- Value of a decimal digit character. -/
def digitVal (c : Char) : Nat := c.toNat - 48

/-- Python `int` on a string of decimal digits (most-significant first). -/
def digitsToNat (l : List Char) : Nat := l.foldl (fun n c => 10 * n + digitVal c) 0

/-- Publication record assembled by `parse_publications` (source lines 96-104). -/
structure Pub where
  title : String
  authors : String
  venue : String
  year : Nat
  scholar_url : String
deriving DecidableEq

/-- Identity key used by the deduplication in `collect_publications`
(source line 123): the pair (lower-cased title, year). -/
def pubKey (p : Pub) : String × Nat := (pyLower p.title, p.year)

/-- Model of the `a.gsc_a_at` anchor element of a row: its rendered text
(`get_text(" ", strip=True)`) and its `href` attribute (`get("href", "")`). -/
structure TitleEl where
  text : String
  href : String
deriving DecidableEq

/-- Model of one `tr.gsc_a_tr` row of a listing page, carrying exactly the
pieces the script reads: the optional title anchor, the rendered texts of the
`div.gs_gray` blocks in page order, and the rendered text of the optional
`td.gsc_a_y` year cell. -/
structure Row where
  title_el : Option TitleEl
  gs_gray : List String
  year_cell : Option String
deriving DecidableEq

/-- Base origin prepended to path links (source line 86). -/
def scholarBase : String := "https://scholar.google.com"

/-- Resolution of a row's detail link (source lines 81-86): strip the raw
href; an empty href yields an empty URL, a path (leading `/`) is resolved
against the base origin, anything else is passed through unchanged. -/
def resolveScholarUrl (rawHref : String) : String :=
  let href := pyStrip rawHref
  if href = "" then ""
  else if pyStartsWith href "/" then scholarBase ++ href
  else href

/-- Year parsing of `parse_publications` (source line 94):
`int(year_text) if year_text.isdigit() else 0`. -/
def parseYear (year_text : String) : Nat :=
  if pyIsdigit year_text then digitsToNat year_text.toList else 0

/-- Embedding of `parse_publications` (source lines 72-105) over the row
model: rows without a title anchor are skipped; the first two gray blocks give
authors and venue (empty when absent); the year cell text is parsed by
`parseYear`; the detail link is resolved by `resolveScholarUrl`. -/
def parse_publications : List Row → List Pub
  | [] => []
  | row :: rest =>
    match row.title_el with
    | none => parse_publications rest
    | some el =>
      ⟨el.text,
       (row.gs_gray.get? 0).getD "",
       (row.gs_gray.get? 1).getD "",
       parseYear ((row.year_cell).getD ""),
       resolveScholarUrl el.href⟩ :: parse_publications rest

/-- Model of an HTTP response: status code and body text. -/
structure Response where
  status_code : Nat
  text : String

/-- Errors `fetch_page` can raise: the `requests.HTTPError` from
`raise_for_status` (generic fetch error, carrying the status) and the
distinct `RuntimeError` for anti-abuse blocking. -/
inductive FetchError where
  | http (status : Nat)
  | blocked
deriving DecidableEq

/-- Anti-abuse marker looked up in the response body (source line 67). -/
def blockedMarker : String := "unusual traffic"

/-- Embedding of `fetch_page` (source lines 63-69): `raise_for_status` raises
for any 4xx/5xx status; otherwise, if the lower-cased body contains the
anti-abuse marker, the distinct blocked error is raised; otherwise the body
text is returned. -/
def fetch_page (resp : Response) : Except FetchError String :=
  if 400 ≤ resp.status_code ∧ resp.status_code < 600 then
    Except.error (FetchError.http resp.status_code)
  else if containsSub blockedMarker.toList (pyLower resp.text).toList then
    Except.error FetchError.blocked
  else Except.ok resp.text

/-- Deduplication key type: (lower-cased title, year). -/
abbrev Key := String × Nat

/-- Body of the per-record loop of `collect_publications` (source lines
122-127): compute the identity key; if already seen, skip the record;
otherwise record the key as seen and append the record. -/
def mergeStep (st : List Key × List Pub) (pub : Pub) : List Key × List Pub :=
  if pubKey pub ∈ st.1 then st else (st.1 ++ [pubKey pub], st.2 ++ [pub])

/-- Merging one page of records into the accumulated state (the `for pub in
page_publications` loop, source lines 122-127).  The seen set is modelled as
the list of keys in insertion order; only membership is ever consulted. -/
def mergePage (seen : List Key) (pubs : List Pub) (page : List Pub) :
    List Key × List Pub :=
  page.foldl mergeStep (seen, pubs)

/-- Embedding of the `while True` pagination loop of `collect_publications`
(source lines 115-140).  The composition of `build_list_url`, `fetch_page`
and the DOM row selection is abstracted as the oracle `site`, which for an
offset yields either a fetch error or the rows of that listing page.  The
loop is fuel-indexed; the result triple is: the outcome (`none` when the
fuel ran out, otherwise the propagated fetch error or the accumulated
publication list), the list of offsets fetched in order, and the raw stream
of records processed (the concatenation of the parsed pages, before
deduplication).  The inter-page `time.sleep` has no effect on values and is
omitted. -/
def collectLoop (site : Int → Except FetchError (List Row))
    (pagesize max_pages : Int) :
    Int → Int → List Key → List Pub → Nat →
    Option (Except FetchError (List Pub)) × List Int × List Pub
  | _start, _pages_fetched, _seen, _pubs, 0 => (none, [], [])
  | start, pages_fetched, seen, pubs, fuel + 1 =>
    match site start with
    | Except.error e => (some (Except.error e), [start], [])
    | Except.ok rows =>
      let page := parse_publications rows
      if page = [] then (some (Except.ok pubs), [start], [])
      else
        let st := mergePage seen pubs page
        if (page.length : Int) < pagesize then
          (some (Except.ok st.2), [start], page)
        else if max_pages ≠ 0 ∧ max_pages ≤ pages_fetched + 1 then
          (some (Except.ok st.2), [start], page)
        else
          let r := collectLoop site pagesize max_pages (start + pagesize)
            (pages_fetched + 1) st.1 st.2 fuel
          (r.1, start :: r.2.1, page ++ r.2.2)

/-- Embedding of `collect_publications` (source lines 108-140): run the
pagination loop from offset 0 with empty accumulators. -/
def collect_publications (site : Int → Except FetchError (List Row))
    (pagesize max_pages : Int) (fuel : Nat) :
    Option (Except FetchError (List Pub)) × List Int × List Pub :=
  collectLoop site pagesize max_pages 0 0 [] [] fuel

/-- Modelled from the spec: the first-occurrence filter.  Keeps, of every
group of records sharing an identity key, exactly the first-encountered one;
`seen` holds the keys already encountered. -/
def firstOccAux (seen : List Key) : List Pub → List Pub
  | [] => []
  | p :: rest =>
    if pubKey p ∈ seen then firstOccAux seen rest
    else p :: firstOccAux (seen ++ [pubKey p]) rest

/-- Modelled from the spec: records surviving deduplication are exactly the
first-encountered record of each identity key, in encounter order. -/
def firstOccurrences (l : List Pub) : List Pub := firstOccAux [] l

/-- Calendar date, as produced by `datetime.date.today()`. -/
structure Date where
  year : Nat
  month : Nat
  day : Nat

/-- Digit character for a value below 10. -/
def digitChar (n : Nat) : Char := Char.ofNat (48 + n)

/-- Decimal digits of a natural number, most significant first (fuel-indexed
helper; the fuel passed by `natDigits` always suffices). -/
def natDigitsGo : Nat → Nat → List Char → List Char
  | 0, _, acc => acc
  | fuel + 1, n, acc =>
    if n < 10 then digitChar n :: acc
    else natDigitsGo fuel (n / 10) (digitChar (n % 10) :: acc)

/-- Decimal digit string of a natural number. -/
def natDigits (n : Nat) : List Char := natDigitsGo (n + 1) n []

/-- Zero padding to a minimum width, as done by `%0kd` formatting. -/
def padZeros (width : Nat) (l : List Char) : List Char :=
  List.replicate (width - l.length) '0' ++ l

/-- Embedding of `datetime.date.isoformat`: `%04d-%02d-%02d` — an ISO 8601
calendar date with no time component. -/
def isoformat (d : Date) : String :=
  String.mk (padZeros 4 (natDigits d.year) ++ '-' ::
    (padZeros 2 (natDigits d.month) ++ '-' :: padZeros 2 (natDigits d.day)))

/-- Stable descending insertion by year: the inserted record goes after every
already-placed record whose year is greater than or equal to its own. -/
def insertDesc (p : Pub) : List Pub → List Pub
  | [] => [p]
  | q :: rest =>
    if q.year < p.year then p :: q :: rest else q :: insertDesc p rest

/-- Embedding of `publications.sort(key=lambda item: item["year"],
reverse=True)` (source line 144).  Python's sort is a stable sort by the
key, descending; a stable descending insertion sort computes the same
list. -/
def sortByYearDesc (l : List Pub) : List Pub :=
  l.foldl (fun acc p => insertDesc p acc) []

/-- JSON values (the fragment the script serializes). -/
inductive Json where
  | str : String → Json
  | num : Nat → Json
  | arr : List Json → Json
  | obj : List (String × Json) → Json

/-- JSON object built for one publication record (source lines 96-104 fix the
field names and order used at source line 152). -/
def pubToJson (p : Pub) : Json :=
  Json.obj [("title", Json.str p.title), ("authors", Json.str p.authors),
    ("venue", Json.str p.venue), ("year", Json.num p.year),
    ("scholar_url", Json.str p.scholar_url)]

/-- Top-level JSON value assembled by `write_output` (source lines 143-149):
the dict with exactly the keys `source`, `last_updated` and `publications`,
the publications sorted by year descending before serialization. -/
def write_output_data (scholar_url : String) (today : Date)
    (publications : List Pub) : Json :=
  Json.obj [("source", Json.str scholar_url),
    ("last_updated", Json.str (isoformat today)),
    ("publications", Json.arr ((sortByYearDesc publications).map pubToJson))]

/-- Keys of a JSON object (empty for other values). -/
def Json.topKeys : Json → List String
  | Json.obj fields => fields.map Prod.fst
  | _ => []

/-- Field lookup in a JSON object. -/
def Json.lookup (j : Json) (k : String) : Option Json :=
  match j with
  | Json.obj fields => (fields.find? (fun f => f.1 = k)).map Prod.snd
  | _ => none

/-- Hexadecimal digit character (lowercase, as Python emits). -/
def hexDigit (n : Nat) : Char :=
  if n < 10 then Char.ofNat (48 + n) else Char.ofNat (87 + n)

/-- Four-digit hexadecimal rendering of a code point. -/
def hex4 (n : Nat) : List Char :=
  [hexDigit (n / 4096 % 16), hexDigit (n / 256 % 16),
   hexDigit (n / 16 % 16), hexDigit (n % 16)]

/-- Escaping of one character under `json.dump(..., ensure_ascii=True)`:
quote, backslash and the named control escapes, `\uXXXX` for the remaining
control and non-ASCII characters (surrogate-pair encoding of code points
above U+FFFF is elided; the script's data is ASCII). -/
def jsonEscapeChar (c : Char) : List Char :=
  if c = '"' then ['\\', '"']
  else if c = '\\' then ['\\', '\\']
  else if c = '\n' then ['\\', 'n']
  else if c = '\t' then ['\\', 't']
  else if c = '\r' then ['\\', 'r']
  else if c = '\x08' then ['\\', 'b']
  else if c = '\x0c' then ['\\', 'f']
  else if c.toNat < 32 || 127 ≤ c.toNat then '\\' :: 'u' :: hex4 c.toNat
  else [c]

/-- JSON string literal serialization. -/
def jsonStr (s : String) : String :=
  "\"" ++ String.mk (s.toList.map jsonEscapeChar).flatten ++ "\""

/-- Serialization of one publication object under `indent=2` (nesting depth
two inside the top-level object and the publications array). -/
def renderPub (p : Pub) : String :=
  "    \x7b\n      \"title\": " ++ jsonStr p.title ++
  ",\n      \"authors\": " ++ jsonStr p.authors ++
  ",\n      \"venue\": " ++ jsonStr p.venue ++
  ",\n      \"year\": " ++ String.mk (natDigits p.year) ++
  ",\n      \"scholar_url\": " ++ jsonStr p.scholar_url ++
  "\n    \x7d"

/-- Serialization of the publications array under `indent=2`; `json.dump`
renders an empty array without newlines. -/
def renderPubs : List Pub → String
  | [] => "[]"
  | p :: ps =>
    "[\n" ++ String.intercalate ",\n" ((p :: ps).map renderPub) ++ "\n  ]"

/-- Embedding of `write_output` (source lines 143-153) as the full text
written to the output file: the data dict of `write_output_data` serialized
with `json.dump(..., ensure_ascii=True, indent=2)`, followed by the
explicitly written trailing newline. -/
def write_output_file (scholar_url : String) (today : Date)
    (publications : List Pub) : String :=
  let sorted := sortByYearDesc publications
  ("\x7b\n  \"source\": " ++ jsonStr scholar_url ++
   ",\n  \"last_updated\": " ++ jsonStr (isoformat today) ++
   ",\n  \"publications\": " ++ renderPubs sorted ++
   "\n\x7d") ++ "\n"

/-- Match of the regex `^\s*googlescholar\s*:\s*(.+?)\s*$` (source line 28)
against one line (the line is modelled without its trailing newline): after
optional leading whitespace the literal key, optional whitespace, a colon,
then at least one further character; the lazy group bracketed by `\s*`
captures the remainder with surrounding whitespace removed. -/
def matchGoogleScholar (line : String) : Option String :=
  let s := pyLstripL line.toList
  if "googlescholar".toList.isPrefixOf s then
    match pyLstripL (s.drop 13) with
    | ':' :: rest => if rest = [] then none else some (String.mk (pyStripL rest))
    | _ => none
  else none

/-- Comment test of the config scan (source line 31):
`line.lstrip().startswith("#")`. -/
def isCommentLine (line : String) : Bool :=
  pyStartsWith (String.mk (pyLstripL line.toList)) "#"

/-- Quote stripping of the config scan (source lines 36-37): when the value
both starts and ends with a single or double quote, drop the first and last
character. -/
def stripQuotes (v : String) : String :=
  if (pyStartsWith v "'" || pyStartsWith v "\"") &&
      (pyEndsWith v "'" || pyEndsWith v "\"") then
    String.mk ((v.toList.drop 1).dropLast)
  else v

/-- Embedding of `parse_config_scholar_url` (source lines 25-39) over the
config file's lines: skip comment lines, return the first line's matched
value with optional surrounding quotes stripped. -/
def parse_config_scholar_url : List String → Option String
  | [] => none
  | line :: rest =>
    if isCommentLine line then parse_config_scholar_url rest
    else
      match matchGoogleScholar line with
      | some value => some (stripQuotes value)
      | none => parse_config_scholar_url rest

/-- Split at the first occurrence of a separator: the part before it, and
the part after it when the separator occurs. -/
def splitFirstL (sep : Char) : List Char → List Char × Option (List Char)
  | [] => ([], none)
  | c :: rest =>
    if c = sep then ([], some rest)
    else
      let r := splitFirstL sep rest
      (c :: r.1, r.2)

/-- Query component extraction of `urllib.parse.urlparse`: the fragment is
split off at the first `#`, then the query is everything after the first
`?` of what remains (empty when there is no `?`). -/
def urlQuery (url : List Char) : List Char :=
  match (splitFirstL '?' (splitFirstL '#' url).1).2 with
  | some q => q
  | none => []

/-- Python `str.split(sep)` on character lists. -/
def splitAllL (sep : Char) : List Char → List (List Char)
  | [] => [[]]
  | c :: rest =>
    let r := splitAllL sep rest
    if c = sep then [] :: r
    else
      match r with
      | [] => [[c]]
      | h :: t => (c :: h) :: t

/-- Hexadecimal digit test. -/
def isHexDigit (c : Char) : Bool :=
  ('0' ≤ c && c ≤ '9') || ('a' ≤ c && c ≤ 'f') || ('A' ≤ c && c ≤ 'F')

/-- Value of a hexadecimal digit character. -/
def hexVal (c : Char) : Nat :=
  if c.toNat ≤ 57 then c.toNat - 48
  else if c.toNat ≤ 70 then c.toNat - 55
  else c.toNat - 87

/-- Percent-decoding of `urllib.parse.unquote`: a `%` followed by two hex
digits decodes to that code point (multi-byte UTF-8 reassembly is elided;
the script's identifiers are ASCII); an invalid escape is kept literally. -/
def percentDecode : List Char → List Char
  | [] => []
  | '%' :: h1 :: h2 :: rest =>
    if isHexDigit h1 && isHexDigit h2 then
      Char.ofNat (16 * hexVal h1 + hexVal h2) :: percentDecode rest
    else '%' :: percentDecode (h1 :: h2 :: rest)
  | c :: rest => c :: percentDecode rest

/-- Embedding of `urllib.parse.unquote_plus`: `+` becomes a space, then
percent escapes are decoded. -/
def unquotePlus (l : List Char) : List Char :=
  percentDecode (l.map (fun c => if c = '+' then ' ' else c))

/-- Embedding of `urllib.parse.parse_qsl` with default arguments: split the
query on `&`, skip empty chunks, chunks without `=` and chunks with an empty
value, and decode names and values with `unquote_plus`. -/
def parse_qsl (query : List Char) : List (String × String) :=
  (splitAllL '&' query).filterMap (fun chunk =>
    if chunk = [] then none
    else
      match splitFirstL '=' chunk with
      | (_, none) => none
      | (name, some value) =>
        if value = [] then none
        else some (String.mk (unquotePlus name), String.mk (unquotePlus value)))

/-- Embedding of `extract_user_id` (source lines 42-48): the first value of
the `user` query parameter of the URL, when present (`parse_qs` groups
`parse_qsl`'s pairs by name, preserving value order, and the script takes
the first `user` value). -/
def extract_user_id (scholar_url : String) : Option String :=
  ((parse_qsl (urlQuery scholar_url.toList)).filterMap
    (fun p => if p.1 = "user" then some p.2 else none)).head?

/-- Embedding of the tail of `main` (source lines 188-194): run the
collection; on success write the output file exactly once, otherwise
propagate the error having written nothing.  The second component lists the
contents of the files written during the run. -/
def run_main (site : Int → Except FetchError (List Row))
    (pagesize max_pages : Int) (scholar_url : String) (today : Date)
    (fuel : Nat) : Option (Except FetchError Unit) × List String :=
  match collect_publications site pagesize max_pages fuel with
  | (none, _, _) => (none, [])
  | (some (Except.error e), _, _) => (some (Except.error e), [])
  | (some (Except.ok pubs), _, _) =>
    (some (Except.ok ()), [write_output_file scholar_url today pubs])

deriving instance DecidableEq for Except

/-- Ordering relation of the final output: year descending. -/
def yearGE (a b : Pub) : Prop := b.year ≤ a.year

/-- Sample row used in the concrete loop scenarios: a publication titled
"A Paper" from 2020 with no link, authors or venue. -/
def rowA : Row := ⟨some ⟨"A Paper", ""⟩, [], some "2020"⟩

/-- Sample row for a second publication, "B Paper" from 2019. -/
def rowB : Row := ⟨some ⟨"B Paper", ""⟩, [], some "2019"⟩

/-- Record parsed from `rowA`. -/
def pubA : Pub := ⟨"A Paper", "", "", 2020, ""⟩

/-- Record parsed from `rowB`. -/
def pubB : Pub := ⟨"B Paper", "", "", 2019, ""⟩

/-- Site whose every page consists of the single row `rowA`: with page size 1
every page is full-sized and every page after the first is entirely
duplicates. -/
def dupSite : Int → Except FetchError (List Row) := fun _ => Except.ok [rowA]

/-- Site with one short page holding `rowA`, a duplicate of `rowA`, and
`rowB`. -/
def shortSite : Int → Except FetchError (List Row) :=
  fun start => if start = 0 then Except.ok [rowA, rowA, rowB] else Except.ok []

/-- Site whose first fetch is blocked. -/
def blockedSite : Int → Except FetchError (List Row) :=
  fun _ => Except.error FetchError.blocked

/-- Config file lines of the end-to-end discovery scenario: a comment line,
an unrelated setting, the Google Scholar line, and a later line that must be
ignored because only the first match counts. -/
def cfgLines : List String :=
  ["# site settings", "title: My Site",
   "googlescholar: https://scholar.google.com/citations?user=XYZ123",
   "googlescholar: https://example.org/?user=OTHER"]


theorem foldl_digits_eq (l : List Char) : ∀ n : Nat,
    l.foldl (fun a c => 10 * a + digitVal c) n =
      n * 10 ^ l.length + Nat.ofDigits 10 ((l.map digitVal).reverse) := by
  induction l with
  | nil => intro n; simp
  | cons c rest ih =>
    intro n
    simp only [List.foldl_cons, List.map_cons, List.reverse_cons, List.length_cons]
    rw [ih (10 * n + digitVal c), Nat.ofDigits_append]
    simp only [List.length_reverse, List.length_map, Nat.ofDigits_singleton, pow_succ]
    ring

theorem digitsToNat_eq_ofDigits (l : List Char) :
    digitsToNat l = Nat.ofDigits 10 ((l.map digitVal).reverse) := by
  have h := foldl_digits_eq l 0
  simpa [digitsToNat] using h

/-- C4: year parsing yields the integer value of the text (its value as a
base-10 numeral) when the text is a nonempty string of decimal digits, and
yields 0 otherwise; being a total function it never raises; in particular
"2023" yields 2023 and "" and "n/a" yield 0. -/
theorem parseYear_spec :
    (∀ t : String, t.toList ≠ [] → t.toList.all Char.isDigit = true →
      parseYear t = Nat.ofDigits 10 ((t.toList.map digitVal).reverse)) ∧
    (∀ t : String, ¬(t.toList ≠ [] ∧ t.toList.all Char.isDigit = true) →
      parseYear t = 0) ∧
    parseYear "2023" = 2023 ∧ parseYear "" = 0 ∧ parseYear "n/a" = 0 := by
  refine ⟨?_, ?_, by decide, by decide, by decide⟩
  · intro t hne hall
    have hd : pyIsdigit t = true := by
      simp only [String.toList] at hne hall
      simp [pyIsdigit, String.toList, List.isEmpty_iff, hne, hall]
    rw [parseYear, if_pos hd, digitsToNat_eq_ofDigits]
  · intro t h
    by_cases hd : pyIsdigit t = true
    · exfalso
      apply h
      simp only [pyIsdigit, Bool.and_eq_true, Bool.not_eq_true'] at hd
      have h1 : t.toList ≠ [] := by
        intro hnil
        have h2 := hd.1
        rw [hnil] at h2
        simp at h2
      exact ⟨h1, hd.2⟩
    · rw [parseYear, if_neg]
      simpa using hd

/-- C4 witness: concrete instantiations of the two conditional parts. -/
theorem parseYear_spec_witness :
    parseYear "77" = Nat.ofDigits 10 (("77".toList.map digitVal).reverse) ∧
    parseYear "n/a" = 0 :=
  ⟨parseYear_spec.1 "77" (by decide) (by decide),
   parseYear_spec.2.1 "n/a" (by intro h; exact absurd h.2 (by decide))⟩

/-- C8: a stripped link that is a path (leading "/") resolves against the
base origin https://scholar.google.com; a nonempty link that is not a path
passes through unchanged; the concrete path of the claim resolves as stated;
and `parse_publications` gives every row's record exactly this resolution of
its raw href. -/
theorem resolve_link_spec :
    (∀ href : String, pyStrip href ≠ "" → pyStartsWith (pyStrip href) "/" = true →
      resolveScholarUrl href = scholarBase ++ pyStrip href) ∧
    (∀ href : String, pyStrip href ≠ "" → pyStartsWith (pyStrip href) "/" = false →
      resolveScholarUrl href = pyStrip href) ∧
    resolveScholarUrl "/citations?view_op=view_citation&hl=en&user=ABC" =
      "https://scholar.google.com/citations?view_op=view_citation&hl=en&user=ABC" ∧
    (∀ (el : TitleEl) (gray : List String) (yc : Option String) (rest : List Row),
      parse_publications (⟨some el, gray, yc⟩ :: rest) =
        ⟨el.text, (gray.get? 0).getD "", (gray.get? 1).getD "",
          parseYear (yc.getD ""), resolveScholarUrl el.href⟩ ::
          parse_publications rest) := by
  refine ⟨?_, ?_, by decide, ?_⟩
  · intro href hne hpath
    simp [resolveScholarUrl, hne, hpath]
  · intro href hne hpath
    simp [resolveScholarUrl, hne, hpath]
  · intro el gray yc rest
    rfl

/-- C8 witness: concrete path and absolute links resolved by the theorem. -/
theorem resolve_link_spec_witness :
    resolveScholarUrl "/x" = scholarBase ++ pyStrip "/x" ∧
    resolveScholarUrl "https://example.org/x" = pyStrip "https://example.org/x" :=
  ⟨resolve_link_spec.1 "/x" (by decide) (by decide),
   resolve_link_spec.2.1 "https://example.org/x" (by decide) (by decide)⟩

/-- C9: on the concrete config, URL discovery takes the first matching
non-comment line and subject-identifier extraction from that URL's `user`
query parameter yields exactly XYZ123. -/
theorem config_to_user_id :
    parse_config_scholar_url cfgLines =
      some "https://scholar.google.com/citations?user=XYZ123" ∧
    extract_user_id "https://scholar.google.com/citations?user=XYZ123" =
      some "XYZ123" :=
  ⟨by decide, by decide⟩

/-- C7: for a response whose status does not raise, a body containing the
anti-abuse marker (case-insensitively) makes `fetch_page` fail with the
blocked error, which is distinct from every generic HTTP fetch error;
without the marker the body text is returned; and a blocked first fetch
aborts the collection run after that single fetch, with no retry. -/
theorem fetch_page_blocked_spec :
    (∀ resp : Response, ¬(400 ≤ resp.status_code ∧ resp.status_code < 600) →
      containsSub blockedMarker.toList (pyLower resp.text).toList = true →
      fetch_page resp = Except.error FetchError.blocked) ∧
    (∀ status, FetchError.blocked ≠ FetchError.http status) ∧
    (∀ resp : Response, ¬(400 ≤ resp.status_code ∧ resp.status_code < 600) →
      containsSub blockedMarker.toList (pyLower resp.text).toList = false →
      fetch_page resp = Except.ok resp.text) ∧
    (∀ (site : Int → Except FetchError (List Row)) (ps mp : Int) (fuel : Nat),
      site 0 = Except.error FetchError.blocked →
      collect_publications site ps mp (fuel + 1) =
        (some (Except.error FetchError.blocked), [0], [])) := by
  refine ⟨?_, ?_, ?_, ?_⟩
  · intro resp hst hbl
    simp only [String.toList] at hbl
    simp [fetch_page, hst, String.toList, hbl]
  · intro status h
    exact FetchError.noConfusion h
  · intro resp hst hbl
    simp only [String.toList] at hbl
    simp [fetch_page, hst, String.toList, hbl]
  · intro site ps mp fuel hsite
    simp [collect_publications, collectLoop, hsite]

/-- C7 witness: a success-status body with the marker in mixed case is
blocked; a clean body is returned; a blocked first fetch ends the run after
one fetch. -/
theorem fetch_page_blocked_spec_witness :
    fetch_page ⟨200, "please verify: UNUSUAL Traffic from your network"⟩ =
      Except.error FetchError.blocked ∧
    fetch_page ⟨200, "all fine"⟩ = Except.ok "all fine" ∧
    collect_publications blockedSite 100 0 9 =
      (some (Except.error FetchError.blocked), [0], []) :=
  ⟨fetch_page_blocked_spec.1 ⟨200, "please verify: UNUSUAL Traffic from your network"⟩
      (by decide) (by decide),
   fetch_page_blocked_spec.2.2.1 ⟨200, "all fine"⟩ (by decide) (by decide),
   fetch_page_blocked_spec.2.2.2 blockedSite 100 0 8 rfl⟩

theorem collectLoop_fetched_head (site : Int → Except FetchError (List Row))
    (ps mp start pf : Int) (seen : List Key) (pubs : List Pub) (fuel : Nat) :
    ∃ rest, (collectLoop site ps mp start pf seen pubs (fuel + 1)).2.1 =
      start :: rest := by
  cases hsite : site start with
  | error e => exact ⟨[], by simp [collectLoop, hsite]⟩
  | ok rows =>
    by_cases hp : parse_publications rows = []
    · exact ⟨[], by simp [collectLoop, hsite, hp]⟩
    · by_cases hlt : ((parse_publications rows).length : Int) < ps
      · exact ⟨[], by simp [collectLoop, hsite, hp, hlt]⟩
      · by_cases hcap : mp ≠ 0 ∧ mp ≤ pf + 1
        · exact ⟨[], by simp [collectLoop, hsite, hp, hlt, hcap]⟩
        · refine ⟨(collectLoop site ps mp (start + ps) (pf + 1)
            (mergePage seen pubs (parse_publications rows)).1
            (mergePage seen pubs (parse_publications rows)).2 fuel).2.1, ?_⟩
          simp [collectLoop, hsite, hp, hlt, hcap]

/-- C2: a fetched page whose raw record count is strictly below the page
size ends the loop right after its records are merged, with no further
fetch (the fetched-offset list is exactly the current offset); and the
check uses the raw count: with page size 1 a site all of whose pages are
the same single record keeps being fetched (offsets 0, 1, 2 with fuel 3),
the full-size all-duplicate pages never triggering termination. -/
theorem collect_short_page_stops :
    (∀ (site : Int → Except FetchError (List Row)) (ps mp start pf : Int)
        (seen : List Key) (pubs : List Pub) (fuel : Nat) (rows : List Row),
      site start = Except.ok rows →
      parse_publications rows ≠ [] →
      ((parse_publications rows).length : Int) < ps →
      collectLoop site ps mp start pf seen pubs (fuel + 1) =
        (some (Except.ok (mergePage seen pubs (parse_publications rows)).2),
         [start], parse_publications rows)) ∧
    collectLoop dupSite 1 0 0 0 [] [] 3 = (none, [0, 1, 2], [pubA, pubA, pubA]) := by
  constructor
  · intro site ps mp start pf seen pubs fuel rows hsite hne hlt
    simp [collectLoop, hsite, hne, hlt]
  · decide

/-- C2 witness: the short page of `shortSite` (three records, page size
five) is merged and ends the loop after the single fetch at offset 0. -/
theorem collect_short_page_stops_witness :
    collectLoop shortSite 5 0 0 0 [] [] 8 =
      (some (Except.ok (mergePage [] [] (parse_publications [rowA, rowA, rowB])).2),
       [0], parse_publications [rowA, rowA, rowB]) :=
  collect_short_page_stops.1 shortSite 5 0 0 0 [] [] 7 [rowA, rowA, rowB]
    (by decide) (by decide) (by decide)

/-- C3: a fetched page whose raw record count equals the page size, with the
page cap not reached after counting it, makes the loop advance the offset by
the page size and fetch a further page (the next fetched offset is exactly
start plus page size); with a configured cap that is reached, the loop
terminates after merging instead. -/
theorem collect_full_page_continues :
    (∀ (site : Int → Except FetchError (List Row)) (ps mp start pf : Int)
        (seen : List Key) (pubs : List Pub) (fuel : Nat) (rows : List Row),
      site start = Except.ok rows →
      parse_publications rows ≠ [] →
      ((parse_publications rows).length : Int) = ps →
      ¬(mp ≠ 0 ∧ mp ≤ pf + 1) →
      collectLoop site ps mp start pf seen pubs (fuel + 1 + 1) =
        ((collectLoop site ps mp (start + ps) (pf + 1)
            (mergePage seen pubs (parse_publications rows)).1
            (mergePage seen pubs (parse_publications rows)).2 (fuel + 1)).1,
         start :: (collectLoop site ps mp (start + ps) (pf + 1)
            (mergePage seen pubs (parse_publications rows)).1
            (mergePage seen pubs (parse_publications rows)).2 (fuel + 1)).2.1,
         parse_publications rows ++ (collectLoop site ps mp (start + ps) (pf + 1)
            (mergePage seen pubs (parse_publications rows)).1
            (mergePage seen pubs (parse_publications rows)).2 (fuel + 1)).2.2) ∧
        ∃ rest, (collectLoop site ps mp start pf seen pubs (fuel + 1 + 1)).2.1 =
          start :: (start + ps) :: rest) ∧
    (∀ (site : Int → Except FetchError (List Row)) (ps mp start pf : Int)
        (seen : List Key) (pubs : List Pub) (fuel : Nat) (rows : List Row),
      site start = Except.ok rows →
      parse_publications rows ≠ [] →
      ((parse_publications rows).length : Int) = ps →
      mp ≠ 0 → mp ≤ pf + 1 →
      collectLoop site ps mp start pf seen pubs (fuel + 1) =
        (some (Except.ok (mergePage seen pubs (parse_publications rows)).2),
         [start], parse_publications rows)) := by
  constructor
  · intro site ps mp start pf seen pubs fuel rows hsite hne hlen hcap
    have hlt : ¬ ((parse_publications rows).length : Int) < ps := by
      rw [hlen]; exact lt_irrefl ps
    have hstep : collectLoop site ps mp start pf seen pubs (fuel + 1 + 1) =
        ((collectLoop site ps mp (start + ps) (pf + 1)
            (mergePage seen pubs (parse_publications rows)).1
            (mergePage seen pubs (parse_publications rows)).2 (fuel + 1)).1,
         start :: (collectLoop site ps mp (start + ps) (pf + 1)
            (mergePage seen pubs (parse_publications rows)).1
            (mergePage seen pubs (parse_publications rows)).2 (fuel + 1)).2.1,
         parse_publications rows ++ (collectLoop site ps mp (start + ps) (pf + 1)
            (mergePage seen pubs (parse_publications rows)).1
            (mergePage seen pubs (parse_publications rows)).2 (fuel + 1)).2.2) := by
      simp [collectLoop, hsite, hne, hlt, hcap]
    refine ⟨hstep, ?_⟩
    obtain ⟨rest, hrest⟩ := collectLoop_fetched_head site ps mp (start + ps) (pf + 1)
      (mergePage seen pubs (parse_publications rows)).1
      (mergePage seen pubs (parse_publications rows)).2 fuel
    refine ⟨rest, ?_⟩
    rw [hstep]
    simpa using hrest
  · intro site ps mp start pf seen pubs fuel rows hsite hne hlen h0 hle
    have hlt : ¬ ((parse_publications rows).length : Int) < ps := by
      rw [hlen]; exact lt_irrefl ps
    simp [collectLoop, hsite, hne, hlt, h0, hle]

/-- C3 witness: with `dupSite` and page size 1 the full first page makes the
loop fetch offset 1 next; with a cap of one page the loop stops after the
first page. -/
theorem collect_full_page_continues_witness :
    (collectLoop dupSite 1 0 0 0 [] [] 3 =
      ((collectLoop dupSite 1 0 (0 + 1) (0 + 1)
          (mergePage [] [] (parse_publications [rowA])).1
          (mergePage [] [] (parse_publications [rowA])).2 2).1,
       0 :: (collectLoop dupSite 1 0 (0 + 1) (0 + 1)
          (mergePage [] [] (parse_publications [rowA])).1
          (mergePage [] [] (parse_publications [rowA])).2 2).2.1,
       parse_publications [rowA] ++ (collectLoop dupSite 1 0 (0 + 1) (0 + 1)
          (mergePage [] [] (parse_publications [rowA])).1
          (mergePage [] [] (parse_publications [rowA])).2 2).2.2) ∧
      ∃ rest, (collectLoop dupSite 1 0 0 0 [] [] 3).2.1 = 0 :: (0 + 1) :: rest) ∧
    collectLoop dupSite 1 1 0 0 [] [] 5 =
      (some (Except.ok (mergePage [] [] (parse_publications [rowA])).2),
       [0], parse_publications [rowA]) :=
  ⟨collect_full_page_continues.1 dupSite 1 0 0 0 [] [] 1 [rowA]
      (by decide) (by decide) (by decide) (by decide),
   collect_full_page_continues.2 dupSite 1 1 0 0 [] [] 4 [rowA]
      (by decide) (by decide) (by decide) (by decide) (by decide)⟩

theorem mergePage_eq (page : List Pub) : ∀ (seen : List Key) (pubs : List Pub),
    mergePage seen pubs page =
      (seen ++ (firstOccAux seen page).map pubKey, pubs ++ firstOccAux seen page) := by
  induction page with
  | nil => intro seen pubs; simp [mergePage, firstOccAux]
  | cons p rest ih =>
    intro seen pubs
    by_cases hk : pubKey p ∈ seen
    · have h1 : mergePage seen pubs (p :: rest) = mergePage seen pubs rest := by
        simp [mergePage, mergeStep, hk]
      rw [h1, ih]
      simp [firstOccAux, hk]
    · have h1 : mergePage seen pubs (p :: rest) =
          mergePage (seen ++ [pubKey p]) (pubs ++ [p]) rest := by
        simp [mergePage, mergeStep, hk]
      rw [h1, ih]
      simp [firstOccAux, hk, List.append_assoc]

theorem firstOccAux_append (a : List Pub) : ∀ (seen : List Key) (b : List Pub),
    firstOccAux seen (a ++ b) =
      firstOccAux seen a ++
        firstOccAux (seen ++ (firstOccAux seen a).map pubKey) b := by
  induction a with
  | nil => intro seen b; simp [firstOccAux]
  | cons p rest ih =>
    intro seen b
    by_cases hk : pubKey p ∈ seen
    · simp [firstOccAux, hk, ih]
    · simp [firstOccAux, hk, ih, List.append_assoc]

theorem collectLoop_ok : ∀ (fuel : Nat) (site : Int → Except FetchError (List Row))
    (ps mp start pf : Int) (seen : List Key) (pubs : List Pub)
    (out : List Pub) (offs : List Int) (raw : List Pub),
    collectLoop site ps mp start pf seen pubs fuel =
      (some (Except.ok out), offs, raw) →
    out = pubs ++ firstOccAux seen raw := by
  intro fuel
  induction fuel with
  | zero =>
    intro site ps mp start pf seen pubs out offs raw h
    simp [collectLoop] at h
  | succ fuel ih =>
    intro site ps mp start pf seen pubs out offs raw h
    cases hsite : site start with
    | error e =>
      simp [collectLoop, hsite] at h
    | ok rows =>
      simp only [collectLoop, hsite] at h
      split_ifs at h with hp hlt hcap
      · simp only [Prod.mk.injEq, Option.some.injEq, Except.ok.injEq] at h
        rw [← h.1, ← h.2.2]
        simp [firstOccAux]
      · simp only [Prod.mk.injEq, Option.some.injEq, Except.ok.injEq] at h
        rw [← h.1, ← h.2.2, mergePage_eq]
      · simp only [Prod.mk.injEq, Option.some.injEq, Except.ok.injEq] at h
        rw [← h.1, ← h.2.2, mergePage_eq]
      · rcases hr : collectLoop site ps mp (start + ps) (pf + 1)
          (mergePage seen pubs (parse_publications rows)).1
          (mergePage seen pubs (parse_publications rows)).2 fuel with ⟨ro, roffs, rraw⟩
        rw [hr] at h
        simp only [Prod.mk.injEq] at h
        have hout := ih site ps mp (start + ps) (pf + 1)
          (mergePage seen pubs (parse_publications rows)).1
          (mergePage seen pubs (parse_publications rows)).2 out roffs rraw
          (by rw [hr, h.1])
        rw [← h.2.2, hout, mergePage_eq]
        simp [firstOccAux_append, List.append_assoc]

/-- C1: whenever the collection run returns a publication list, that list is
exactly the first-occurrence filter of the raw stream of extracted records
(page order within a page and across pages): of every group of records
sharing the identity key (lower-cased title, year), only the
first-encountered one appears, all later ones being skipped. -/
theorem collect_dedup_first_encounter :
    ∀ (site : Int → Except FetchError (List Row)) (ps mp : Int) (fuel : Nat)
      (out : List Pub) (offs : List Int) (raw : List Pub),
    collect_publications site ps mp fuel = (some (Except.ok out), offs, raw) →
    out = firstOccurrences raw := by
  intro site ps mp fuel out offs raw h
  have h2 := collectLoop_ok fuel site ps mp 0 0 [] [] out offs raw h
  simpa [firstOccurrences] using h2

/-- C1 witness: the run over `shortSite` processes the raw stream
[pubA, pubA, pubB] and returns its first-occurrence filter [pubA, pubB]. -/
theorem collect_dedup_first_encounter_witness :
    collect_publications shortSite 5 0 8 =
      (some (Except.ok [pubA, pubB]), [0], [pubA, pubA, pubB]) ∧
    [pubA, pubB] = firstOccurrences [pubA, pubA, pubB] :=
  ⟨by decide,
   collect_dedup_first_encounter shortSite 5 0 8 [pubA, pubB] [0]
     [pubA, pubA, pubB] (by decide)⟩

theorem firstOccAux_keys_nodup : ∀ (l : List Pub) (seen : List Key),
    ((firstOccAux seen l).map pubKey).Nodup ∧
    ∀ k ∈ (firstOccAux seen l).map pubKey, k ∉ seen := by
  intro l
  induction l with
  | nil => intro seen; simp [firstOccAux]
  | cons p rest ih =>
    intro seen
    by_cases hk : pubKey p ∈ seen
    · simpa [firstOccAux, hk] using ih seen
    · have hfo : firstOccAux seen (p :: rest) =
          p :: firstOccAux (seen ++ [pubKey p]) rest := by
        simp [firstOccAux, hk]
      obtain ⟨hnd, hmem⟩ := ih (seen ++ [pubKey p])
      rw [hfo]
      constructor
      · rw [List.map_cons, List.nodup_cons]
        refine ⟨fun hin => ?_, hnd⟩
        have h2 := hmem _ hin
        simp at h2
      · intro k hkin
        rw [List.map_cons, List.mem_cons] at hkin
        rcases hkin with hkp | hkin2
        · rw [hkp]; exact hk
        · intro hks
          exact (hmem _ hkin2) (by simp [hks])

/-- C10: merging a page preserves the loop invariant that the seen-key set
is exactly the set of identity keys of the accumulated records, those keys
pairwise distinct; consequently any returned collection carries pairwise
distinct identity keys — it never contains two records with the same key. -/
theorem collect_seen_invariant :
    (∀ (seen : List Key) (pubs page : List Pub),
      seen = pubs.map pubKey → (pubs.map pubKey).Nodup →
      (mergePage seen pubs page).1 = (mergePage seen pubs page).2.map pubKey ∧
      ((mergePage seen pubs page).2.map pubKey).Nodup) ∧
    (∀ (site : Int → Except FetchError (List Row)) (ps mp : Int) (fuel : Nat)
        (out : List Pub) (offs : List Int) (raw : List Pub),
      collect_publications site ps mp fuel = (some (Except.ok out), offs, raw) →
      (out.map pubKey).Nodup) := by
  constructor
  · intro seen pubs page hseen hnd
    rw [mergePage_eq]
    obtain ⟨hnd2, hmem⟩ := firstOccAux_keys_nodup page seen
    constructor
    · rw [hseen, List.map_append]
    · rw [List.map_append, List.nodup_append]
      refine ⟨hnd, hnd2, fun a ha hb => (hmem a hb) ?_⟩
      rw [hseen]
      exact ha
  · intro site ps mp fuel out offs raw h
    have h2 := collectLoop_ok fuel site ps mp 0 0 [] [] out offs raw h
    rw [h2]
    simpa using (firstOccAux_keys_nodup raw []).1

/-- C10 witness: the invariant holds across a concrete merge, and a concrete
run returns a collection with pairwise distinct keys. -/
theorem collect_seen_invariant_witness :
    ((mergePage [pubKey pubA] [pubA] [pubA, pubB]).1 =
      (mergePage [pubKey pubA] [pubA] [pubA, pubB]).2.map pubKey ∧
     ((mergePage [pubKey pubA] [pubA] [pubA, pubB]).2.map pubKey).Nodup) ∧
    ([pubA, pubB].map pubKey).Nodup :=
  ⟨collect_seen_invariant.1 [pubKey pubA] [pubA] [pubA, pubB] rfl (by decide),
   collect_seen_invariant.2 shortSite 7 0 9 [pubA, pubB] [0]
     [pubA, pubA, pubB] (by decide)⟩

/-- C6: a failed fetch makes the whole run abort with that error and no
output file is written; the output is written exactly once, and only when
the entire collection run has succeeded; a fetch error at the current
offset aborts the loop immediately; and no run ever writes more than one
file. -/
theorem run_writes_once_after_success :
    (∀ (site : Int → Except FetchError (List Row)) (ps mp : Int) (url : String)
        (today : Date) (fuel : Nat) (e : FetchError) (offs : List Int)
        (raw : List Pub),
      collect_publications site ps mp fuel = (some (Except.error e), offs, raw) →
      run_main site ps mp url today fuel = (some (Except.error e), [])) ∧
    (∀ (site : Int → Except FetchError (List Row)) (ps mp : Int) (url : String)
        (today : Date) (fuel : Nat) (pubs : List Pub) (offs : List Int)
        (raw : List Pub),
      collect_publications site ps mp fuel = (some (Except.ok pubs), offs, raw) →
      run_main site ps mp url today fuel =
        (some (Except.ok ()), [write_output_file url today pubs])) ∧
    (∀ (site : Int → Except FetchError (List Row)) (ps mp start pf : Int)
        (seen : List Key) (pubs : List Pub) (fuel : Nat) (e : FetchError),
      site start = Except.error e →
      collectLoop site ps mp start pf seen pubs (fuel + 1) =
        (some (Except.error e), [start], [])) ∧
    (∀ (site : Int → Except FetchError (List Row)) (ps mp : Int) (url : String)
        (today : Date) (fuel : Nat),
      (run_main site ps mp url today fuel).2.length ≤ 1) := by
  refine ⟨?_, ?_, ?_, ?_⟩
  · intro site ps mp url today fuel e offs raw h
    simp [run_main, h]
  · intro site ps mp url today fuel pubs offs raw h
    simp [run_main, h]
  · intro site ps mp start pf seen pubs fuel e hsite
    simp [collectLoop, hsite]
  · intro site ps mp url today fuel
    rcases hc : collect_publications site ps mp fuel with ⟨o, offs, raw⟩
    cases o with
    | none => simp [run_main, hc]
    | some ex =>
      cases ex with
      | error e => simp [run_main, hc]
      | ok pubs => simp [run_main, hc]

/-- C6 witness: a blocked first fetch aborts the run with nothing written;
a successful run writes the single output file. -/
theorem run_writes_once_after_success_witness :
    run_main blockedSite 100 0 "u" ⟨2026, 10, 12⟩ 5 =
      (some (Except.error FetchError.blocked), []) ∧
    run_main shortSite 5 0 "u" ⟨2026, 10, 12⟩ 8 =
      (some (Except.ok ()),
       [write_output_file "u" ⟨2026, 10, 12⟩ [pubA, pubB]]) :=
  ⟨run_writes_once_after_success.1 blockedSite 100 0 "u" ⟨2026, 10, 12⟩ 5
      FetchError.blocked [0] [] (by decide),
   run_writes_once_after_success.2.1 shortSite 5 0 "u" ⟨2026, 10, 12⟩ 8
      [pubA, pubB] [0] [pubA, pubA, pubB] (by decide)⟩

theorem mem_insertDesc (p x : Pub) : ∀ l, x ∈ insertDesc p l ↔ x = p ∨ x ∈ l := by
  intro l
  induction l with
  | nil => simp [insertDesc]
  | cons q rest ih =>
    by_cases h : q.year < p.year
    · simp [insertDesc, h]
    · simp [insertDesc, h, ih]
      tauto

theorem sorted_insertDesc (p : Pub) : ∀ l, List.Sorted yearGE l →
    List.Sorted yearGE (insertDesc p l) := by
  intro l
  induction l with
  | nil => intro _; exact List.sorted_singleton p
  | cons q rest ih =>
    intro hs
    rw [List.sorted_cons] at hs
    obtain ⟨hq, hrest⟩ := hs
    by_cases h : q.year < p.year
    · simp only [insertDesc, if_pos h]
      rw [List.sorted_cons]
      refine ⟨?_, ?_⟩
      · intro b hb
        rcases List.mem_cons.mp hb with rfl | hb2
        · exact le_of_lt h
        · exact le_trans (hq b hb2) (le_of_lt h)
      · rw [List.sorted_cons]
        exact ⟨hq, hrest⟩
    · simp only [insertDesc, if_neg h]
      rw [List.sorted_cons]
      refine ⟨?_, ih hrest⟩
      intro b hb
      rcases (mem_insertDesc p b rest).mp hb with rfl | hb2
      · exact Nat.le_of_not_lt h
      · exact hq b hb2

theorem filter_insertDesc (p : Pub) (y : Nat) : ∀ l, List.Sorted yearGE l →
    List.filter (fun q => q.year = y) (insertDesc p l) =
      if p.year = y then List.filter (fun q => q.year = y) l ++ [p]
      else List.filter (fun q => q.year = y) l := by
  intro l
  induction l with
  | nil =>
    intro _
    by_cases hp : p.year = y <;> simp [insertDesc, hp]
  | cons q rest ih =>
    intro hs
    rw [List.sorted_cons] at hs
    obtain ⟨hq, hrest⟩ := hs
    by_cases h : q.year < p.year
    · have hins : insertDesc p (q :: rest) = p :: q :: rest := by
        simp [insertDesc, h]
      rw [hins]
      by_cases hp : p.year = y
      · have hnil : List.filter (fun r => decide (r.year = y)) (q :: rest) = [] := by
          rw [List.filter_eq_nil_iff]
          intro a ha
          simp only [decide_eq_true_eq]
          rcases List.mem_cons.mp ha with rfl | ha2
          · omega
          · have h3 : a.year ≤ q.year := hq a ha2
            omega
        simp [hp, hnil]
      · simp [hp]
    · have ihr := ih hrest
      have hins : insertDesc p (q :: rest) = q :: insertDesc p rest := by
        simp [insertDesc, h]
      rw [hins]
      simp only [List.filter_cons, ihr]
      by_cases hp : p.year = y
      · by_cases hqy : q.year = y
        · simp [hp, hqy]
        · simp [hp, hqy]
      · by_cases hqy : q.year = y
        · simp [hp, hqy]
        · simp [hp, hqy]

theorem foldl_insertDesc_sorted (l : List Pub) : ∀ acc, List.Sorted yearGE acc →
    List.Sorted yearGE (l.foldl (fun a p => insertDesc p a) acc) := by
  induction l with
  | nil => intro acc h; exact h
  | cons p rest ih =>
    intro acc h
    exact ih _ (sorted_insertDesc p acc h)

theorem sortByYearDesc_sorted (l : List Pub) :
    List.Sorted yearGE (sortByYearDesc l) :=
  foldl_insertDesc_sorted l [] (by simp)

theorem foldl_insertDesc_filter (y : Nat) (l : List Pub) :
    ∀ acc, List.Sorted yearGE acc →
    List.filter (fun q => q.year = y) (l.foldl (fun a p => insertDesc p a) acc) =
      List.filter (fun q => q.year = y) acc ++
        List.filter (fun q => q.year = y) l := by
  induction l with
  | nil => intro acc h; simp
  | cons p rest ih =>
    intro acc h
    rw [List.foldl_cons, ih _ (sorted_insertDesc p acc h),
      filter_insertDesc p y acc h]
    by_cases hp : p.year = y
    · simp [hp, List.append_assoc]
    · simp [hp]

theorem sortByYearDesc_filter (l : List Pub) (y : Nat) :
    List.filter (fun q => q.year = y) (sortByYearDesc l) =
      List.filter (fun q => q.year = y) l := by
  have h := foldl_insertDesc_filter y l [] (by simp)
  simpa [sortByYearDesc] using h

theorem digitChar_isDigit (k : Nat) (h : k < 10) : (digitChar k).isDigit = true := by
  interval_cases k <;> decide

theorem natDigitsGo_digits : ∀ (fuel n : Nat) (acc : List Char),
    (∀ c ∈ acc, c.isDigit = true) →
    ∀ c ∈ natDigitsGo fuel n acc, c.isDigit = true := by
  intro fuel
  induction fuel with
  | zero =>
    intro n acc hacc
    simpa [natDigitsGo] using hacc
  | succ fuel ih =>
    intro n acc hacc
    rw [natDigitsGo]
    by_cases h : n < 10
    · rw [if_pos h]
      intro c hc
      rcases List.mem_cons.mp hc with rfl | hc2
      · exact digitChar_isDigit n h
      · exact hacc c hc2
    · rw [if_neg h]
      apply ih
      intro c hc
      rcases List.mem_cons.mp hc with rfl | hc2
      · exact digitChar_isDigit (n % 10) (Nat.mod_lt n (by norm_num))
      · exact hacc c hc2

theorem natDigits_digits (n : Nat) : ∀ c ∈ natDigits n, c.isDigit = true :=
  natDigitsGo_digits (n + 1) n [] (by simp)

theorem padZeros_digits (w : Nat) (l : List Char)
    (h : ∀ c ∈ l, c.isDigit = true) : ∀ c ∈ padZeros w l, c.isDigit = true := by
  intro c hc
  rw [padZeros] at hc
  rcases List.mem_append.mp hc with hrep | hl
  · rw [List.eq_of_mem_replicate hrep]
    decide
  · exact h c hl

theorem isoformat_shape (d : Date) :
    (isoformat d).toList.all (fun c => c.isDigit || c = '-') = true := by
  rw [List.all_eq_true]
  intro c hc
  have hc2 : c ∈ padZeros 4 (natDigits d.year) ++ '-' ::
      (padZeros 2 (natDigits d.month) ++ '-' :: padZeros 2 (natDigits d.day)) := hc
  rcases List.mem_append.mp hc2 with h1 | h2
  · simp [padZeros_digits 4 _ (natDigits_digits d.year) c h1]
  · rcases List.mem_cons.mp h2 with rfl | h3
    · decide
    · rcases List.mem_append.mp h3 with h4 | h5
      · simp [padZeros_digits 2 _ (natDigits_digits d.month) c h4]
      · rcases List.mem_cons.mp h5 with rfl | h6
        · decide
        · simp [padZeros_digits 2 _ (natDigits_digits d.day) c h6]

/-- C5: the output document is a JSON object with exactly the top-level
fields source (the profile URL), last_updated (today's date as an ISO 8601
calendar date — digits and hyphens only, no time component) and publications
(the collected records sorted by year descending, records of equal year
keeping their relative order), and the file text ends in a trailing
newline. -/
theorem write_output_spec :
    ∀ (url : String) (today : Date) (pubs : List Pub),
      (write_output_data url today pubs).topKeys =
        ["source", "last_updated", "publications"] ∧
      (write_output_data url today pubs).lookup "source" = some (Json.str url) ∧
      (write_output_data url today pubs).lookup "last_updated" =
        some (Json.str (isoformat today)) ∧
      (isoformat today).toList.all (fun c => c.isDigit || c = '-') = true ∧
      (write_output_data url today pubs).lookup "publications" =
        some (Json.arr ((sortByYearDesc pubs).map pubToJson)) ∧
      List.Sorted yearGE (sortByYearDesc pubs) ∧
      (∀ y : Nat, List.filter (fun q => q.year = y) (sortByYearDesc pubs) =
        List.filter (fun q => q.year = y) pubs) ∧
      (∃ s : String, write_output_file url today pubs = s ++ "\n") := by
  intro url today pubs
  exact ⟨rfl, rfl, rfl, isoformat_shape today, rfl, sortByYearDesc_sorted pubs,
    fun y => sortByYearDesc_filter pubs y, ⟨_, rfl⟩⟩
